import Mathlib

/-!
Verification of the kintai attendance tracker core (src/app.py).

The sqlite table `work_logs` is embedded as a list of rows in insertion
order.  Timestamps are the values `parse_dt` produces from the stored
`"YYYY-MM-DD HH:MM:SS"` strings, modelled as seconds on a linear time axis
(an `Int`); a SQL `NULL` column is `none`.  Every timestamp the app ever
stores comes from `now_iso()` and is a nonempty string, so Python
truthiness of a stamp column coincides with the column being non-NULL,
i.e. with `Option.isSome`.
-/

/-- A timestamp: the datetime `parse_dt` returns, as seconds. -/
abbrev Ts := Int

/-- One row of the `work_logs` table (src/app.py, `init_db`).  The
`created_at` column (filled by a DB default, informational only per the
data model) is omitted. -/
structure Session where
  id : Nat
  work_date : String
  clock_in : Option Ts
  clock_out : Option Ts
deriving DecidableEq

/-- The `work_logs` table, rows in insertion order. -/
abbrev Store := List Session

/-- The id `AUTOINCREMENT` assigns to the next inserted row.  Ids strictly
increase and rows are never deleted, so the next id is the maximum plus
one. -/
def nextId (s : Store) : Nat := (s.map (·.id)).foldr max 0 + 1

/-- `SELECT * FROM work_logs WHERE work_date = ? ORDER BY id DESC LIMIT 1`:
the session for `d` with the greatest id (ids are unique: primary key). -/
def lastFor (d : String) (s : Store) : Option Session :=
  (s.filter (fun r => r.work_date = d)).argmax (·.id)

/-- Outcome of `POST /clock-in`: the warning flash, or success. -/
inductive ClockInResult
  | alreadyClockedIn
  | ok
deriving DecidableEq

/-- Outcome of `POST /clock-out`: the error/warning flash (the flag records
whether the most recent session was already clocked out), or success. -/
inductive ClockOutResult
  | noOpenSession (alreadyClosed : Bool)
  | ok
deriving DecidableEq

/-- `POST /clock-in` (src/app.py lines 100-124): if the last record for the
day exists and its `clock_out` is NULL, warn and change nothing; otherwise
insert a fresh row with `clock_in = ts` and `clock_out = NULL`. -/
def clock_in (d : String) (ts : Ts) (s : Store) : ClockInResult × Store :=
  match lastFor d s with
  | some last =>
    if last.clock_out = none then (.alreadyClockedIn, s)
    else (.ok, s ++ [{ id := nextId s, work_date := d, clock_in := some ts, clock_out := none }])
  | none => (.ok, s ++ [{ id := nextId s, work_date := d, clock_in := some ts, clock_out := none }])

/-- `POST /clock-out` (src/app.py lines 126-153): error if there is no last
record for the day or its `clock_in` is NULL; warn if its `clock_out` is
already set; otherwise `UPDATE work_logs SET clock_out = ts WHERE id = last.id`. -/
def clock_out (d : String) (ts : Ts) (s : Store) : ClockOutResult × Store :=
  match lastFor d s with
  | none => (.noOpenSession false, s)
  | some last =>
    if last.clock_in = none then (.noOpenSession false, s)
    else if last.clock_out ≠ none then (.noOpenSession true, s)
    else (.ok, s.map fun r => if r.id = last.id then { r with clock_out := some ts } else r)

/-- `calc_work_minutes` (src/app.py lines 68-74): `None` when either stamp
is missing, else `int((dt_out - dt_in).total_seconds() // 60)` clamped
below at 0.  Python `//` is floor division, `Int.fdiv`. -/
def calc_work_minutes (ci co : Option Ts) : Option Int :=
  match ci, co with
  | some a, some b => some (max (Int.fdiv (b - a) 60) 0)
  | _, _ => none

/-- `fmt_minutes` (src/app.py lines 76-81): `"-"` for `None`, else
`f"{h}:{mm:02d}"` with `h = m // 60` and `mm = m % 60`; Python `//` and `%`
are `Int.fdiv` and `Int.fmod`, and `mm`, lying in `[0, 60)`, is
zero-padded to two digits. -/
def fmt_minutes : Option Int → String
  | none => "-"
  | some m =>
    toString (Int.fdiv m 60) ++ ":" ++
      (if Int.fmod m 60 < 10 then "0" ++ toString (Int.fmod m 60) else toString (Int.fmod m 60))

/-- The spec notion of an open session: `clock_in` set, `clock_out` absent. -/
def OpenSession (r : Session) : Prop := r.clock_in.isSome = true ∧ r.clock_out = none

instance : DecidablePred OpenSession := fun r => by unfold OpenSession; exact inferInstance

/-- States reachable from an empty store by `ClockIn` / `ClockOut`. -/
inductive Reachable : Store → Prop
  | empty : Reachable []
  | clockIn (d : String) (ts : Ts) (s : Store) :
      Reachable s → Reachable (clock_in d ts s).2
  | clockOut (d : String) (ts : Ts) (s : Store) :
      Reachable s → Reachable (clock_out d ts s).2

/-! ## Basic facts about `nextId` and `lastFor` -/

theorem le_foldr_max (l : List Nat) (x : Nat) (hx : x ∈ l) : x ≤ l.foldr max 0 := by
  induction l with
  | nil => cases hx
  | cons a l ih =>
    rcases List.mem_cons.1 hx with rfl | h
    · exact le_max_left _ _
    · exact le_trans (ih h) (le_max_right _ _)

theorem id_lt_nextId {s : Store} {r : Session} (hr : r ∈ s) : r.id < nextId s :=
  Nat.lt_succ_of_le (le_foldr_max _ _ (List.mem_map_of_mem (·.id) hr))

theorem lastFor_mem {d : String} {s : Store} {r : Session}
    (h : lastFor d s = some r) : r ∈ s ∧ r.work_date = d := by
  have hmem : r ∈ s.filter (fun x => x.work_date = d) :=
    List.argmax_mem (Option.mem_def.mpr h)
  have := List.mem_filter.1 hmem
  exact ⟨this.1, by simpa using this.2⟩

theorem lastFor_max {d : String} {s : Store} {r : Session}
    (h : lastFor d s = some r) {x : Session} (hx : x ∈ s) (hxd : x.work_date = d) :
    x.id ≤ r.id := by
  have hxf : x ∈ s.filter (fun y => y.work_date = d) :=
    List.mem_filter.2 ⟨hx, by simpa using hxd⟩
  exact List.le_of_mem_argmax hxf (Option.mem_def.mpr h)

theorem lastFor_eq_none {d : String} {s : Store}
    (h : lastFor d s = none) {x : Session} (hx : x ∈ s) : x.work_date ≠ d := by
  intro hxd
  have : s.filter (fun y => y.work_date = d) = [] := List.argmax_eq_none.1 h
  have := List.filter_eq_nil_iff.1 this x hx
  simp [hxd] at this

/-! ## C4: `calc_work_minutes` -/

/-- C4.  ComputeDuration postcondition: for every pair of optional
timestamps, `calc_work_minutes` returns `none` if either is absent;
otherwise it returns `floor((clock_out - clock_in) / 60)` minutes clamped
to a minimum of 0, so the result is never negative, equals
`floor((t2 - t1) / 60)` whenever `t2 ≥ t1`, and is 0 whenever `t2 < t1`. -/
theorem calc_work_minutes_spec :
    (∀ x, calc_work_minutes none x = none) ∧
    (∀ x, calc_work_minutes x none = none) ∧
    (∀ a b : Ts, calc_work_minutes (some a) (some b)
        = some (max ⌊((b : ℚ) - (a : ℚ)) / 60⌋ 0)) ∧
    (∀ a b : Ts, ∀ m : Int, calc_work_minutes (some a) (some b) = some m → 0 ≤ m) ∧
    (∀ a b : Ts, a ≤ b →
        calc_work_minutes (some a) (some b) = some ⌊((b : ℚ) - (a : ℚ)) / 60⌋) ∧
    (∀ a b : Ts, b < a → calc_work_minutes (some a) (some b) = some 0) := by
  have hfloor : ∀ a b : Ts, ⌊((b : ℚ) - (a : ℚ)) / 60⌋ = Int.fdiv (b - a) 60 := by
    intro a b
    have h1 : ((b : ℚ) - (a : ℚ)) = ((b - a : ℤ) : ℚ) := by push_cast; ring
    have h2 : ((60 : ℚ)) = ((60 : ℕ) : ℚ) := by norm_num
    rw [h1, h2, Rat.floor_intCast_div_natCast, Int.fdiv_eq_ediv _ (by norm_num)]
    norm_num
  refine ⟨fun x => by cases x <;> rfl, fun x => by cases x <;> rfl, ?_, ?_, ?_, ?_⟩
  · intro a b
    simp [calc_work_minutes, hfloor]
  · intro a b m h
    simp only [calc_work_minutes, Option.some.injEq] at h
    omega
  · intro a b hab
    have h0 : 0 ≤ Int.fdiv (b - a) 60 := by
      rw [Int.fdiv_eq_ediv _ (by norm_num)]
      exact Int.ediv_nonneg (sub_nonneg.mpr hab) (by norm_num)
    simp [calc_work_minutes, hfloor, max_eq_left h0]
  · intro a b hba
    have hneg : Int.fdiv (b - a) 60 < 0 := by
      rw [Int.fdiv_eq_ediv _ (by norm_num)]
      exact Int.ediv_neg' (sub_neg.mpr hba) (by norm_num)
    simp [calc_work_minutes, max_eq_right (le_of_lt hneg)]

/-- Witness for C4 at concrete inputs: a span of 12600 seconds is 210
minutes (never negative), and reversed stamps clamp to 0. -/
theorem calc_work_minutes_spec_witness :
    (0 : Int) ≤ 210 ∧ calc_work_minutes (some 10) (some 0) = some 0 :=
  ⟨calc_work_minutes_spec.2.2.2.1 0 12600 210 (by decide),
   calc_work_minutes_spec.2.2.2.2.2 10 0 (by decide)⟩

/-! ## C9: `fmt_minutes` -/

/-- C9.  Minutes formatting: a defined minutes value `m` renders as
`"{h}:{mm:02d}"` with `h = m div 60` and `mm = m mod 60` (two digits,
zero-padded), `none` renders as `"-"`, and a 0-minute duration from
identical clock-in and clock-out stamps renders as `"0:00"`, not `"-"`. -/
theorem fmt_minutes_spec :
    fmt_minutes none = "-" ∧
    (∀ m : Int, fmt_minutes (some m)
        = toString (m / 60) ++ ":" ++
            (if m % 60 < 10 then "0" ++ toString (m % 60) else toString (m % 60))) ∧
    (∀ t : Ts, fmt_minutes (calc_work_minutes (some t) (some t)) = "0:00") := by
  refine ⟨rfl, ?_, ?_⟩
  · intro m
    simp only [fmt_minutes, Int.fdiv_eq_ediv _ (by norm_num : (0:Int) ≤ 60),
      Int.fmod_eq_emod _ (by norm_num : (0:Int) ≤ 60)]
  · intro t
    have h : calc_work_minutes (some t) (some t) = some 0 := by
      simp [calc_work_minutes]
    rw [h]
    rfl

/-! ## C10: the clock-in guard looks only at `clock_out` -/

/-- C10.  `ClockIn`'s guard inspects only the `clock_out` field of the most
recent session for the day: whenever the latest session for `d` has
`clock_out` absent, `ClockIn(d, ts)` is rejected with no state change,
even if that session's `clock_in` is also absent. -/
theorem clock_in_guard_clock_out_only (d : String) (ts : Ts) (s : Store) (r : Session)
    (hlast : lastFor d s = some r) (hco : r.clock_out = none) :
    clock_in d ts s = (ClockInResult.alreadyClockedIn, s) := by
  unfold clock_in
  rw [hlast]
  simp [hco]

/-- Witness for C10: a degenerate row with both stamps NULL still blocks
clock-in. -/
theorem clock_in_guard_clock_out_only_witness :
    clock_in "2026-01-05" 540 [⟨1, "2026-01-05", none, none⟩]
      = (ClockInResult.alreadyClockedIn, [⟨1, "2026-01-05", none, none⟩]) :=
  clock_in_guard_clock_out_only "2026-01-05" 540 _ ⟨1, "2026-01-05", none, none⟩
    (by decide) rfl

/-! ## C2: the ClockIn contract -/

/-- C2.  ClockIn contract: if the most recent session for `d` is open,
`ClockIn(d, ts)` signals `AlreadyClockedIn` and leaves the store
unchanged; if there is no session for `d` or the most recent one is
closed, it appends exactly one new session for `d` with `clock_in = ts`
and `clock_out` absent, changing no other row. -/
theorem clock_in_contract (d : String) (ts : Ts) (s : Store) :
    ((∃ r, lastFor d s = some r ∧ r.clock_in.isSome = true ∧ r.clock_out = none) →
      clock_in d ts s = (ClockInResult.alreadyClockedIn, s)) ∧
    ((lastFor d s = none ∨ ∃ r, lastFor d s = some r ∧ r.clock_out.isSome = true) →
      clock_in d ts s = (ClockInResult.ok,
        s ++ [{ id := nextId s, work_date := d, clock_in := some ts, clock_out := none }])) := by
  constructor
  · rintro ⟨r, hlast, -, hco⟩
    unfold clock_in
    rw [hlast]
    simp [hco]
  · rintro (hnone | ⟨r, hlast, hco⟩)
    · unfold clock_in
      rw [hnone]
    · unfold clock_in
      rw [hlast]
      have : ¬ r.clock_out = none := by
        cases h : r.clock_out <;> simp [h] at hco ⊢
      simp [this]

/-- Witness for C2: with one open session clock-in is refused and nothing
changes; with the session closed a second row is inserted. -/
theorem clock_in_contract_witness :
    clock_in "2026-01-05" 600 [⟨1, "2026-01-05", some 540, none⟩]
      = (ClockInResult.alreadyClockedIn, [⟨1, "2026-01-05", some 540, none⟩]) ∧
    clock_in "2026-01-05" 780 [⟨1, "2026-01-05", some 540, some 720⟩]
      = (ClockInResult.ok, [⟨1, "2026-01-05", some 540, some 720⟩,
          ⟨2, "2026-01-05", some 780, none⟩]) :=
  ⟨(clock_in_contract "2026-01-05" 600 _).1
      ⟨⟨1, "2026-01-05", some 540, none⟩, by decide, rfl, rfl⟩,
   (clock_in_contract "2026-01-05" 780 _).2
      (Or.inr ⟨⟨1, "2026-01-05", some 540, some 720⟩, by decide, rfl⟩)⟩

/-! ## C3: the ClockOut contract -/

/-- C3.  ClockOut contract: if no session exists for `d` or the most
recent one is already closed, `ClockOut(d, ts)` signals `NoOpenSession`
and leaves the store unchanged; if the most recent session for `d` is
open, it sets that session's `clock_out` to `ts`. -/
theorem clock_out_contract (d : String) (ts : Ts) (s : Store) :
    ((lastFor d s = none ∨ ∃ r, lastFor d s = some r ∧ r.clock_out.isSome = true) →
      (∃ b, (clock_out d ts s).1 = ClockOutResult.noOpenSession b) ∧
      (clock_out d ts s).2 = s) ∧
    ((∃ r, lastFor d s = some r ∧ r.clock_in.isSome = true ∧ r.clock_out = none) →
      ∃ r, lastFor d s = some r ∧
        clock_out d ts s = (ClockOutResult.ok,
          s.map fun x => if x.id = r.id then { x with clock_out := some ts } else x)) := by
  constructor
  · rintro (hnone | ⟨r, hlast, hco⟩)
    · unfold clock_out
      rw [hnone]
      exact ⟨⟨false, rfl⟩, rfl⟩
    · unfold clock_out
      rw [hlast]
      by_cases hci : r.clock_in = none
      · simp [hci]
      · have hco' : r.clock_out ≠ none := by
          cases h : r.clock_out <;> simp [h] at hco ⊢
        simp [hci, hco']
  · rintro ⟨r, hlast, hci, hco⟩
    refine ⟨r, hlast, ?_⟩
    unfold clock_out
    rw [hlast]
    have hci' : ¬ r.clock_in = none := by
      cases h : r.clock_in <;> simp [h] at hci ⊢
    simp [hci', hco]

/-- Witness for C3: on a day with a single closed session clock-out is
refused with no change; with the session open its `clock_out` is set. -/
theorem clock_out_contract_witness :
    ((∃ b, (clock_out "2026-01-05" 800 [⟨1, "2026-01-05", some 540, some 720⟩]).1
        = ClockOutResult.noOpenSession b) ∧
      (clock_out "2026-01-05" 800 [⟨1, "2026-01-05", some 540, some 720⟩]).2
        = [⟨1, "2026-01-05", some 540, some 720⟩]) ∧
    (∃ r, lastFor "2026-01-05" [⟨1, "2026-01-05", some 540, none⟩] = some r ∧
      clock_out "2026-01-05" 720 [⟨1, "2026-01-05", some 540, none⟩]
        = (ClockOutResult.ok,
            [⟨1, "2026-01-05", some 540, none⟩].map
              fun x => if x.id = r.id then { x with clock_out := some 720 } else x)) :=
  ⟨(clock_out_contract "2026-01-05" 800 _).1
      (Or.inr ⟨⟨1, "2026-01-05", some 540, some 720⟩, by decide, rfl⟩),
   (clock_out_contract "2026-01-05" 720 _).2
      ⟨⟨1, "2026-01-05", some 540, none⟩, by decide, rfl, rfl⟩⟩

/-! ## Equation lemmas for the two operations -/

theorem clock_in_insert (d : String) (ts : Ts) (s : Store)
    (h : lastFor d s = none ∨ ∃ last, lastFor d s = some last ∧ ¬ last.clock_out = none) :
    clock_in d ts s = (ClockInResult.ok,
      s ++ [{ id := nextId s, work_date := d, clock_in := some ts, clock_out := none }]) := by
  rcases h with h | ⟨last, h, hco⟩
  · unfold clock_in
    rw [h]
  · unfold clock_in
    rw [h]
    simp [hco]

theorem clock_in_reject (d : String) (ts : Ts) (s : Store) (last : Session)
    (h : lastFor d s = some last) (hco : last.clock_out = none) :
    clock_in d ts s = (ClockInResult.alreadyClockedIn, s) := by
  unfold clock_in
  rw [h]
  simp [hco]

theorem clock_out_noop_none (d : String) (ts : Ts) (s : Store)
    (h : lastFor d s = none) :
    clock_out d ts s = (ClockOutResult.noOpenSession false, s) := by
  unfold clock_out
  rw [h]

theorem clock_out_noop_ci (d : String) (ts : Ts) (s : Store) (last : Session)
    (h : lastFor d s = some last) (hci : last.clock_in = none) :
    clock_out d ts s = (ClockOutResult.noOpenSession false, s) := by
  unfold clock_out
  rw [h]
  simp [hci]

theorem clock_out_noop_co (d : String) (ts : Ts) (s : Store) (last : Session)
    (h : lastFor d s = some last) (hci : ¬ last.clock_in = none)
    (hco : ¬ last.clock_out = none) :
    clock_out d ts s = (ClockOutResult.noOpenSession true, s) := by
  unfold clock_out
  rw [h]
  simp [hci, hco]

theorem clock_out_update (d : String) (ts : Ts) (s : Store) (last : Session)
    (h : lastFor d s = some last) (hci : ¬ last.clock_in = none)
    (hco : last.clock_out = none) :
    clock_out d ts s = (ClockOutResult.ok,
      s.map fun r => if r.id = last.id then { r with clock_out := some ts } else r) := by
  unfold clock_out
  rw [h]
  simp [hci, hco]

/-! ## C6: frame property of the two operations -/

/-- C6.  Frame property: no operation deletes a session; `ClockIn` either
changes nothing or only appends one new row, and `ClockOut` either changes
nothing or changes only the `clock_out` field of the single open session
(which is the most recent row for the day), leaving its other fields and
every other session untouched. -/
theorem ops_frame (d : String) (ts : Ts) (s : Store)
    (hids : (s.map (·.id)).Nodup) :
    ((clock_in d ts s).2 = s ∨
      (clock_in d ts s).2
        = s ++ [{ id := nextId s, work_date := d, clock_in := some ts, clock_out := none }]) ∧
    ((clock_out d ts s).2 = s ∨
      ∃ r ∈ s, OpenSession r ∧ lastFor d s = some r ∧
        (clock_out d ts s).2
          = s.map (fun x => if x.id = r.id then { x with clock_out := some ts } else x) ∧
        ∀ x ∈ s, x ≠ r →
          (if x.id = r.id then { x with clock_out := some ts } else x) = x) := by
  constructor
  · rcases h : lastFor d s with _ | last
    · exact Or.inr (congrArg Prod.snd (clock_in_insert d ts s (Or.inl h)))
    · by_cases hco : last.clock_out = none
      · exact Or.inl (congrArg Prod.snd (clock_in_reject d ts s last h hco))
      · exact Or.inr (congrArg Prod.snd (clock_in_insert d ts s (Or.inr ⟨last, h, hco⟩)))
  · rcases h : lastFor d s with _ | last
    · exact Or.inl (congrArg Prod.snd (clock_out_noop_none d ts s h))
    · by_cases hci : last.clock_in = none
      · exact Or.inl (congrArg Prod.snd (clock_out_noop_ci d ts s last h hci))
      · by_cases hco : last.clock_out = none
        · refine Or.inr ⟨last, (lastFor_mem h).1,
            ⟨Option.ne_none_iff_isSome.mp hci, hco⟩, rfl,
            congrArg Prod.snd (clock_out_update d ts s last h hci hco), ?_⟩
          intro x hx hne
          rw [if_neg]
          intro hid
          exact hne (List.inj_on_of_nodup_map hids hx (lastFor_mem h).1 hid)
        · exact Or.inl (congrArg Prod.snd (clock_out_noop_co d ts s last h hci hco))

/-- Witness for C6 on a one-row store with an open session. -/
theorem ops_frame_witness :
    ((clock_in "2026-01-05" 780 [⟨1, "2026-01-05", some 540, none⟩]).2
        = [⟨1, "2026-01-05", some 540, none⟩] ∨
      (clock_in "2026-01-05" 780 [⟨1, "2026-01-05", some 540, none⟩]).2
        = [⟨1, "2026-01-05", some 540, none⟩]
            ++ [{ id := nextId [⟨1, "2026-01-05", some 540, none⟩],
                  work_date := "2026-01-05", clock_in := some 780, clock_out := none }]) ∧
    ((clock_out "2026-01-05" 780 [⟨1, "2026-01-05", some 540, none⟩]).2
        = [⟨1, "2026-01-05", some 540, none⟩] ∨
      ∃ r ∈ [(⟨1, "2026-01-05", some 540, none⟩ : Session)], OpenSession r ∧
        lastFor "2026-01-05" [⟨1, "2026-01-05", some 540, none⟩] = some r ∧
        (clock_out "2026-01-05" 780 [⟨1, "2026-01-05", some 540, none⟩]).2
          = [(⟨1, "2026-01-05", some 540, none⟩ : Session)].map
              (fun x => if x.id = r.id then { x with clock_out := some 780 } else x) ∧
        ∀ x ∈ [(⟨1, "2026-01-05", some 540, none⟩ : Session)], x ≠ r →
          (if x.id = r.id then { x with clock_out := some 780 } else x) = x) :=
  ops_frame "2026-01-05" 780 [⟨1, "2026-01-05", some 540, none⟩] (by decide)

/-! ## C1: the reachable-state invariant -/

/-- Inductive invariant of reachable stores: ids are pairwise distinct,
every row has `clock_in` set, and a row with `clock_out` absent has the
strictly largest id among the rows of its `work_date`. -/
def StoreInv (s : Store) : Prop :=
  (s.map (·.id)).Nodup ∧
  (∀ r ∈ s, r.clock_in.isSome = true) ∧
  (∀ r ∈ s, r.clock_out = none →
    ∀ x ∈ s, x.work_date = r.work_date → x ≠ r → x.id < r.id)

theorem storeInv_nil : StoreInv [] := ⟨List.nodup_nil, by simp, by simp⟩

theorem storeInv_append_new (d : String) (ts : Ts) (s : Store) (h : StoreInv s)
    (hnoopen : ∀ r ∈ s, r.work_date = d → r.clock_out ≠ none) :
    StoreInv (s ++ [{ id := nextId s, work_date := d, clock_in := some ts, clock_out := none }]) := by
  obtain ⟨hnd, hci, hdom⟩ := h
  refine ⟨?_, ?_, ?_⟩
  · rw [List.map_append]
    refine hnd.append (List.nodup_singleton _) ?_
    intro a ha hb
    simp only [List.map_cons, List.map_nil, List.mem_singleton] at hb
    rcases List.mem_map.1 ha with ⟨r, hr, rfl⟩
    exact absurd hb (Nat.ne_of_lt (id_lt_nextId hr))
  · intro r hr
    rcases List.mem_append.1 hr with hr | hr
    · exact hci r hr
    · rw [List.mem_singleton.1 hr]
      rfl
  · intro r hr hrco x hx hxd hxr
    rcases List.mem_append.1 hr with hr | hr
    · have hrd : r.work_date ≠ d := fun hd => hnoopen r hr hd hrco
      rcases List.mem_append.1 hx with hx | hx
      · exact hdom r hr hrco x hx hxd hxr
      · rw [List.mem_singleton.1 hx] at hxd
        exact absurd hxd.symm hrd
    · rw [List.mem_singleton.1 hr]
      rcases List.mem_append.1 hx with hx | hx
      · exact id_lt_nextId hx
      · rw [List.mem_singleton.1 hr] at hxr
        exact absurd (List.mem_singleton.1 hx) hxr

theorem storeInv_update (s : Store) (n : Nat) (ts : Ts) (h : StoreInv s) :
    StoreInv (s.map (fun x => if x.id = n then { x with clock_out := some ts } else x)) := by
  obtain ⟨hnd, hci, hdom⟩ := h
  have hid : ∀ x : Session,
      (if x.id = n then { x with clock_out := some ts } else x).id = x.id := by
    intro x
    by_cases hx : x.id = n <;> simp [hx]
  have hwd : ∀ x : Session,
      (if x.id = n then { x with clock_out := some ts } else x).work_date = x.work_date := by
    intro x
    by_cases hx : x.id = n <;> simp [hx]
  have hcin : ∀ x : Session,
      (if x.id = n then { x with clock_out := some ts } else x).clock_in = x.clock_in := by
    intro x
    by_cases hx : x.id = n <;> simp [hx]
  refine ⟨?_, ?_, ?_⟩
  · rw [List.map_map]
    have : ((·.id) ∘ fun x : Session => if x.id = n then { x with clock_out := some ts } else x)
        = fun x : Session => x.id := funext fun x => hid x
    rw [this]
    exact hnd
  · intro y hy
    rcases List.mem_map.1 hy with ⟨x, hx, rfl⟩
    rw [hcin]
    exact hci x hx
  · intro y hy hyco x hx hxd hxy
    rcases List.mem_map.1 hy with ⟨y₀, hy₀, rfl⟩
    rcases List.mem_map.1 hx with ⟨x₀, hx₀, rfl⟩
    have hy0 : (if y₀.id = n then { y₀ with clock_out := some ts } else y₀) = y₀ := by
      by_cases hn : y₀.id = n
      · exfalso
        rw [if_pos hn] at hyco
        simp at hyco
      · rw [if_neg hn]
    rw [hid x₀, hid y₀]
    rw [hy0] at hyco
    refine hdom y₀ hy₀ hyco x₀ hx₀ ?_ ?_
    · rw [hwd x₀, hwd y₀] at hxd
      exact hxd
    · intro he
      rw [he] at hxy
      exact hxy rfl

theorem storeInv_clock_in (d : String) (ts : Ts) (s : Store) (h : StoreInv s) :
    StoreInv (clock_in d ts s).2 := by
  rcases hl : lastFor d s with _ | last
  · rw [clock_in_insert d ts s (Or.inl hl)]
    exact storeInv_append_new d ts s h
      (fun r hr hd => absurd hd (lastFor_eq_none hl hr))
  · by_cases hco : last.clock_out = none
    · rw [clock_in_reject d ts s last hl hco]
      exact h
    · rw [clock_in_insert d ts s (Or.inr ⟨last, hl, hco⟩)]
      refine storeInv_append_new d ts s h ?_
      intro r hr hd hrco
      by_cases hrl : r = last
      · rw [hrl] at hrco
        exact hco hrco
      · have h1 := h.2.2 r hr hrco last (lastFor_mem hl).1
          (by rw [(lastFor_mem hl).2, hd]) (fun he => hrl he.symm)
        have h2 := lastFor_max hl hr hd
        omega

theorem storeInv_clock_out (d : String) (ts : Ts) (s : Store) (h : StoreInv s) :
    StoreInv (clock_out d ts s).2 := by
  rcases hl : lastFor d s with _ | last
  · rw [clock_out_noop_none d ts s hl]
    exact h
  · by_cases hci : last.clock_in = none
    · rw [clock_out_noop_ci d ts s last hl hci]
      exact h
    · by_cases hco : last.clock_out = none
      · rw [clock_out_update d ts s last hl hci hco]
        exact storeInv_update s last.id ts h
      · rw [clock_out_noop_co d ts s last hl hci hco]
        exact h

theorem reachable_storeInv {s : Store} (h : Reachable s) : StoreInv s := by
  induction h with
  | empty => exact storeInv_nil
  | clockIn d ts s _ ih => exact storeInv_clock_in d ts s ih
  | clockOut d ts s _ ih => exact storeInv_clock_out d ts s ih

/-- C1.  State-machine invariant: in every state reachable from the empty
store by `ClockIn` / `ClockOut` operations, each `work_date` has at most
one open session, and when one exists it is the session with the highest
id for that date. -/
theorem reachable_at_most_one_open (s : Store) (hs : Reachable s)
    (r x : Session) (hr : r ∈ s) (hx : x ∈ s) (hdate : x.work_date = r.work_date) :
    (OpenSession r → OpenSession x → x = r) ∧ (OpenSession r → x.id ≤ r.id) := by
  obtain ⟨hnd, hci, hdom⟩ := reachable_storeInv hs
  constructor
  · intro hor hox
    by_contra hne
    have h1 := hdom r hr hor.2 x hx hdate hne
    have h2 := hdom x hx hox.2 r hr hdate.symm (fun he => hne he.symm)
    omega
  · intro hor
    by_cases hne : x = r
    · exact le_of_eq (congrArg (·.id) hne)
    · exact le_of_lt (hdom r hr hor.2 x hx hdate hne)

/-- Witness for C1 on the reachable two-session store built by clock-in,
clock-out, clock-in on one day: the closed first session's id is bounded
by the open second session's id. -/
theorem reachable_at_most_one_open_witness :
    (⟨1, "2026-01-05", some 540, some 720⟩ : Session).id
      ≤ (⟨2, "2026-01-05", some 780, none⟩ : Session).id :=
  (reachable_at_most_one_open
    (clock_in "2026-01-05" 780
      ((clock_out "2026-01-05" 720 ((clock_in "2026-01-05" 540 ([] : Store)).2)).2)).2
    (Reachable.clockIn _ _ _ (Reachable.clockOut _ _ _
      (Reachable.clockIn _ _ _ Reachable.empty)))
    ⟨2, "2026-01-05", some 780, none⟩ ⟨1, "2026-01-05", some 540, some 720⟩
    (by decide) (by decide) rfl).2 (by decide)

/-! ## The GET /logs report (src/app.py lines 155-204) -/

/-- One entry of a day's record list (src/app.py lines 177-182).  The view
substitutes `"-"` for an absent stamp when rendering `clock_in` /
`clock_out`; `minutes` is Python `mins or 0`, i.e. `Option.getD mins 0`. -/
structure LogRecord where
  clock_in : Option Ts
  clock_out : Option Ts
  work_time : String
  minutes : Int
deriving DecidableEq

/-- One element of the `enriched` list (src/app.py lines 192-196). -/
structure DayEntry where
  work_date : String
  records : List LogRecord
  day_total : String
deriving DecidableEq

/-- The template arguments of `render_template("logs.html", ...)`
(src/app.py lines 198-204). -/
structure LogsPage where
  daily_logs : List DayEntry
  month : String
  total_time : String
  total_days : Nat
deriving DecidableEq

/-- The record dict appended for one row (src/app.py lines 176-182). -/
def toRecord (r : Session) : LogRecord :=
  { clock_in := r.clock_in, clock_out := r.clock_out,
    work_time := fmt_minutes (calc_work_minutes r.clock_in r.clock_out),
    minutes := (calc_work_minutes r.clock_in r.clock_out).getD 0 }

/-- One step of filling the `daily_logs` dict (src/app.py lines 171-182):
append the row's record to its date's bucket, creating the bucket at the
end on first sight of the date (Python dicts preserve insertion order). -/
def addRow (acc : List (String × List LogRecord)) (r : Session) :
    List (String × List LogRecord) :=
  if acc.any (fun p => p.1 = r.work_date) then
    acc.map (fun p => if p.1 = r.work_date then (p.1, p.2 ++ [toRecord r]) else p)
  else acc ++ [(r.work_date, [toRecord r])]

/-- The `daily_logs` dict: buckets keyed by `work_date` in insertion
order. -/
def groupByDate (rows : List Session) : List (String × List LogRecord) :=
  rows.foldl addRow []

/-- Python dict access `daily_logs[d]`. -/
def dictGet (d : String) : List (String × List LogRecord) → List LogRecord
  | [] => []
  | p :: ps => if p.1 = d then p.2 else dictGet d ps

/-- `ORDER BY work_date DESC, id`: dates descending (SQLite compares the
`YYYY-MM-DD` text bytewise), ids ascending within a date. -/
def rowLe (a b : Session) : Prop :=
  b.work_date < a.work_date ∨ (a.work_date = b.work_date ∧ a.id ≤ b.id)

instance : DecidableRel rowLe := fun a b =>
  @instDecidableOr _ _
    (decidable_of_iff (b.work_date.toList < a.work_date.toList)
      String.lt_iff_toList_lt.symm)
    (@instDecidableAnd _ _ (instDecidableEqString _ _) (Nat.decLe _ _))

instance : IsTotal Session rowLe := ⟨by
  intro a b
  rcases lt_trichotomy a.work_date b.work_date with h | h | h
  · exact Or.inr (Or.inl h)
  · rcases le_total a.id b.id with hid | hid
    · exact Or.inl (Or.inr ⟨h, hid⟩)
    · exact Or.inr (Or.inr ⟨h.symm, hid⟩)
  · exact Or.inl (Or.inl h)⟩

instance : IsTrans Session rowLe := ⟨by
  intro a b c hab hbc
  rcases hab with h1 | ⟨e1, i1⟩
  · rcases hbc with h2 | ⟨e2, i2⟩
    · exact Or.inl (lt_trans h2 h1)
    · refine Or.inl ?_
      rw [← e2]
      exact h1
  · rcases hbc with h2 | ⟨e2, i2⟩
    · refine Or.inl ?_
      rw [e1]
      exact h2
    · exact Or.inr ⟨e1.trans e2, le_trans i1 i2⟩⟩

/-- Python `sorted(keys, reverse=True)` ordering on date strings. -/
def keyGe (a b : String) : Prop := b ≤ a

instance : DecidableRel keyGe := fun a b =>
  decidable_of_iff (¬ a.toList < b.toList)
    (by rw [← String.lt_iff_toList_lt]; exact not_lt)

instance : IsTotal String keyGe := ⟨fun a b => le_total b a⟩

instance : IsTrans String keyGe := ⟨fun _ _ _ hab hbc => le_trans hbc hab⟩

/-- The SQL select of GET /logs (src/app.py lines 157-167): when a
nonempty `month` parameter is supplied, keep the rows whose `work_date`
matches `LIKE "month-%"` — on digit-and-dash data this is exactly the
prefix test — and order by `work_date DESC, id`; Python `if month:` treats
a missing and an empty parameter alike. -/
def selectRows (month : Option String) (s : Store) : List Session :=
  match month with
  | some m =>
    if m = "" then List.insertionSort rowLe s
    else List.insertionSort rowLe
      (s.filter (fun r => List.isPrefixOf (m ++ "-").toList r.work_date.toList))
  | none => List.insertionSort rowLe s

/-- One element of `enriched` (src/app.py lines 188-196): the day's
records and the formatted sum of their `minutes`. -/
def dayEntryOf (daily : List (String × List LogRecord)) (d : String) : DayEntry :=
  { work_date := d, records := dictGet d daily,
    day_total := fmt_minutes (some (((dictGet d daily).map (·.minutes)).sum)) }

/-- The Python aggregation of GET /logs (src/app.py lines 169-204): group
the rows by date, walk the dates in `sorted(keys, reverse=True)` order
accumulating `total_min`, and render the page data. -/
def buildReport (month : Option String) (rows : List Session) : LogsPage :=
  let daily := groupByDate rows
  let keys := List.insertionSort keyGe (daily.map Prod.fst)
  { daily_logs := keys.map (dayEntryOf daily),
    month := month.getD "",
    total_time := fmt_minutes
      (some ((keys.map (fun d => ((dictGet d daily).map (·.minutes)).sum)).sum)),
    total_days := daily.length }

/-- The whole GET /logs route: SQL select, then Python aggregation. -/
def logsPage (month : Option String) (s : Store) : LogsPage :=
  buildReport month (selectRows month s)

/-- Spec-side formula: the sum of `ComputeDuration` over the sessions of
date `d` among `rows`, an undefined duration counting as 0. -/
def daySum (rows : List Session) (d : String) : Int :=
  ((rows.filter (fun r => r.work_date = d)).map
    (fun r => (calc_work_minutes r.clock_in r.clock_out).getD 0)).sum

/-! ## Correctness of the grouping loop -/

/-- Loop invariant of the `daily_logs` dict after processing the rows
`pr`: keys are distinct, keys are exactly the dates seen, and each bucket
holds the records of its date's rows in order. -/
def Grouped (pr : List Session) (acc : List (String × List LogRecord)) : Prop :=
  (acc.map Prod.fst).Nodup ∧
  (∀ d : String, d ∈ acc.map Prod.fst ↔ d ∈ pr.map (·.work_date)) ∧
  (∀ p ∈ acc, p.2 = (pr.filter (fun r => r.work_date = p.1)).map toRecord)

theorem grouped_addRow {pr : List Session} {acc : List (String × List LogRecord)}
    (h : Grouped pr acc) (r : Session) : Grouped (pr ++ [r]) (addRow acc r) := by
  obtain ⟨hnd, hmem, hbkt⟩ := h
  unfold addRow
  by_cases hany : acc.any (fun p => p.1 = r.work_date) = true
  · rw [if_pos hany]
    have hfst : (acc.map (fun p => if p.1 = r.work_date then (p.1, p.2 ++ [toRecord r]) else p)).map
        Prod.fst = acc.map Prod.fst := by
      rw [List.map_map]
      apply List.map_congr_left
      intro p _
      by_cases hd : p.1 = r.work_date <;> simp [hd]
    refine ⟨?_, ?_, ?_⟩
    · rw [hfst]
      exact hnd
    · intro d
      rw [hfst, List.map_append]
      constructor
      · intro hd
        exact List.mem_append.2 (Or.inl ((hmem d).1 hd))
      · intro hd
        rcases List.mem_append.1 hd with hd | hd
        · exact (hmem d).2 hd
        · simp only [List.map_cons, List.map_nil, List.mem_singleton] at hd
          subst hd
          rcases List.any_eq_true.1 hany with ⟨p, hp, hpd⟩
          have hpd' : p.1 = r.work_date := of_decide_eq_true hpd
          exact hpd' ▸ List.mem_map_of_mem Prod.fst hp
    · intro q hq
      rcases List.mem_map.1 hq with ⟨p, hp, rfl⟩
      by_cases hd : p.1 = r.work_date
      · rw [if_pos hd]
        show p.2 ++ [toRecord r]
            = ((pr ++ [r]).filter (fun x => x.work_date = p.1)).map toRecord
        rw [List.filter_append, List.map_append, hbkt p hp]
        congr 1
        simp [hd.symm]
      · rw [if_neg hd]
        show p.2 = ((pr ++ [r]).filter (fun x => x.work_date = p.1)).map toRecord
        rw [List.filter_append, List.map_append, hbkt p hp]
        have hne : ¬ r.work_date = p.1 := fun h => hd h.symm
        have hr1 : [r].filter (fun x => x.work_date = p.1) = [] := by
          simp [hne]
        rw [hr1]
        simp
  · rw [if_neg hany]
    have hnotin : r.work_date ∉ acc.map Prod.fst := by
      intro hin
      rcases List.mem_map.1 hin with ⟨p, hp, hpd⟩
      exact hany (List.any_eq_true.2 ⟨p, hp, decide_eq_true hpd⟩)
    have hprnone : pr.filter (fun x => x.work_date = r.work_date) = [] := by
      rw [List.filter_eq_nil_iff]
      intro x hx hxd
      have hxd' : x.work_date = r.work_date := of_decide_eq_true hxd
      exact hnotin ((hmem r.work_date).2 (hxd' ▸ List.mem_map_of_mem (·.work_date) hx))
    refine ⟨?_, ?_, ?_⟩
    · rw [List.map_append]
      refine hnd.append (List.nodup_singleton _) ?_
      intro a ha hb
      simp only [List.map_cons, List.map_nil, List.mem_singleton] at hb
      subst hb
      exact hnotin ha
    · intro d
      rw [List.map_append, List.map_append]
      simp only [List.map_cons, List.map_nil, List.mem_append, List.mem_singleton]
      constructor
      · rintro (hd | rfl)
        · exact Or.inl ((hmem d).1 hd)
        · exact Or.inr rfl
      · rintro (hd | rfl)
        · exact Or.inl ((hmem d).2 hd)
        · exact Or.inr rfl
    · intro q hq
      rcases List.mem_append.1 hq with hq | hq
      · rw [hbkt q hq, List.filter_append]
        have hne : q.1 ≠ r.work_date := by
          intro he
          exact hnotin (he ▸ List.mem_map_of_mem Prod.fst hq)
        have hne' : ¬ r.work_date = q.1 := fun h => hne h.symm
        have hr1 : [r].filter (fun x => x.work_date = q.1) = [] := by
          simp [hne']
        rw [hr1]
        simp
      · rw [List.mem_singleton.1 hq]
        show [toRecord r] = ((pr ++ [r]).filter (fun x => x.work_date = r.work_date)).map toRecord
        rw [List.filter_append, hprnone]
        simp

theorem grouped_foldl (rows : List Session) :
    ∀ (pr : List Session) (acc : List (String × List LogRecord)),
      Grouped pr acc → Grouped (pr ++ rows) (rows.foldl addRow acc) := by
  induction rows with
  | nil =>
    intro pr acc h
    simpa using h
  | cons r rs ih =>
    intro pr acc h
    rw [List.foldl_cons]
    have := ih (pr ++ [r]) (addRow acc r) (grouped_addRow h r)
    simpa [List.append_assoc] using this

theorem grouped_groupByDate (rows : List Session) : Grouped rows (groupByDate rows) := by
  have h0 : Grouped [] [] := ⟨List.nodup_nil, by simp, by simp⟩
  have := grouped_foldl rows [] [] h0
  simpa [groupByDate] using this

theorem dictGet_mem : ∀ (acc : List (String × List LogRecord)) (d : String),
    d ∈ acc.map Prod.fst → (d, dictGet d acc) ∈ acc
  | [], d, hd => by simp at hd
  | p :: ps, d, hd => by
    obtain ⟨k, v⟩ := p
    by_cases hp : k = d
    · subst hp
      simp [dictGet]
    · have hd' : d ∈ ps.map Prod.fst := by
        rcases List.mem_map.1 hd with ⟨q, hq, hqd⟩
        rcases List.mem_cons.1 hq with rfl | hq
        · exact absurd hqd hp
        · exact hqd ▸ List.mem_map_of_mem Prod.fst hq
      have hstep : dictGet d ((k, v) :: ps) = dictGet d ps := by
        simp [dictGet, hp]
      rw [hstep]
      exact List.mem_cons_of_mem _ (dictGet_mem ps d hd')

theorem dictGet_bucket (rows : List Session) (d : String)
    (hd : d ∈ (groupByDate rows).map Prod.fst) :
    dictGet d (groupByDate rows) = (rows.filter (fun r => r.work_date = d)).map toRecord := by
  have hg := grouped_groupByDate rows
  have hmem := dictGet_mem (groupByDate rows) d hd
  exact hg.2.2 (d, dictGet d (groupByDate rows)) hmem

/-! ## C5: report totals -/

/-- C5.  Report totals: for every sequence of sessions, each day entry's
total is the formatted sum of `ComputeDuration` over that day's sessions
with undefined durations counted as 0 (such sessions still display `"-"`
in their record); the grand total is the formatted sum of all day totals;
and `total_days` is the number of distinct `work_date` values present,
counting a date even when all its sessions have undefined duration. -/
theorem report_totals (month : Option String) (rows : List Session) :
    (∀ e ∈ (buildReport month rows).daily_logs,
        e.day_total = fmt_minutes (some (daySum rows e.work_date))) ∧
    (buildReport month rows).total_time
      = fmt_minutes (some
          (((buildReport month rows).daily_logs.map
            (fun e => daySum rows e.work_date)).sum)) ∧
    (buildReport month rows).total_days = (rows.map (·.work_date)).toFinset.card := by
  have hperm : (List.insertionSort keyGe ((groupByDate rows).map Prod.fst)).Perm
      ((groupByDate rows).map Prod.fst) := List.perm_insertionSort _ _
  have hsum : ∀ d ∈ List.insertionSort keyGe ((groupByDate rows).map Prod.fst),
      ((dictGet d (groupByDate rows)).map (·.minutes)).sum = daySum rows d := by
    intro d hd
    rw [dictGet_bucket rows d (hperm.mem_iff.1 hd), List.map_map]
    rfl
  refine ⟨?_, ?_, ?_⟩
  · intro e he
    have he' : e ∈ (List.insertionSort keyGe ((groupByDate rows).map Prod.fst)).map
        (dayEntryOf (groupByDate rows)) := he
    rcases List.mem_map.1 he' with ⟨d, hd, rfl⟩
    show fmt_minutes (some (((dictGet d (groupByDate rows)).map (·.minutes)).sum)) = _
    rw [hsum d hd]
    rfl
  · have h1 : ((buildReport month rows).daily_logs.map (fun e => daySum rows e.work_date))
        = (List.insertionSort keyGe ((groupByDate rows).map Prod.fst)).map
            (fun d => daySum rows d) := by
      show ((List.insertionSort keyGe ((groupByDate rows).map Prod.fst)).map
        (dayEntryOf (groupByDate rows))).map (fun e => daySum rows e.work_date) = _
      rw [List.map_map]
      rfl
    have h2 : (List.insertionSort keyGe ((groupByDate rows).map Prod.fst)).map
        (fun d => ((dictGet d (groupByDate rows)).map (·.minutes)).sum)
        = (List.insertionSort keyGe ((groupByDate rows).map Prod.fst)).map
            (fun d => daySum rows d) :=
      List.map_congr_left hsum
    rw [h1, ← h2]
    rfl
  · have h1 : (groupByDate rows).length = ((groupByDate rows).map Prod.fst).length :=
      (List.length_map _ _).symm
    have h2 : ((groupByDate rows).map Prod.fst).toFinset.card
        = ((groupByDate rows).map Prod.fst).length :=
      List.toFinset_card_of_nodup (grouped_groupByDate rows).1
    have h3 : ((groupByDate rows).map Prod.fst).toFinset
        = (rows.map (·.work_date)).toFinset := by
      ext x
      simp only [List.mem_toFinset]
      exact (grouped_groupByDate rows).2.1 x
    show (groupByDate rows).length = _
    rw [h1, ← h2, h3]

/-- Witness for C5: a two-day store where the second day's only session is
still open, so its duration is undefined yet the day counts with total
`"0:00"`. -/
theorem report_totals_witness :
    (⟨"2026-01-04", [⟨some 0, none, "-", 0⟩], "0:00"⟩ : DayEntry).day_total
      = fmt_minutes (some (daySum
          [⟨1, "2026-01-05", some 0, some 12600⟩, ⟨2, "2026-01-04", some 0, none⟩]
          (⟨"2026-01-04", [⟨some 0, none, "-", 0⟩], "0:00"⟩ : DayEntry).work_date)) :=
  (report_totals none
      [⟨1, "2026-01-05", some 0, some 12600⟩, ⟨2, "2026-01-04", some 0, none⟩]).1
    _ (by decide)

/-! ## Facts about the SQL select -/

theorem selectRows_sorted (month : Option String) (s : Store) :
    (selectRows month s).Pairwise rowLe := by
  rcases month with _ | m
  · exact List.sorted_insertionSort rowLe s
  · by_cases hm : m = ""
    · simp only [selectRows, if_pos hm]
      exact List.sorted_insertionSort rowLe s
    · simp only [selectRows, if_neg hm]
      exact List.sorted_insertionSort rowLe _

theorem selectRows_none_perm (s : Store) : (selectRows none s).Perm s :=
  List.perm_insertionSort _ _

theorem selectRows_some_perm (m : String) (s : Store) (hm : m ≠ "") :
    (selectRows (some m) s).Perm
      (s.filter (fun r => List.isPrefixOf (m ++ "-").toList r.work_date.toList)) := by
  simp only [selectRows, if_neg hm]
  exact List.perm_insertionSort _ _

theorem selectRows_ids_nodup (month : Option String) (s : Store)
    (h : (s.map (·.id)).Nodup) : ((selectRows month s).map (·.id)).Nodup := by
  have key : ∀ t : List Session, List.Sublist t s →
      ((List.insertionSort rowLe t).map (·.id)).Nodup := by
    intro t ht
    have h1 : (t.map (·.id)).Nodup := List.Nodup.sublist (ht.map (·.id)) h
    exact ((List.perm_insertionSort rowLe t).map (·.id)).nodup_iff.2 h1
  rcases month with _ | m
  · exact key s (List.Sublist.refl s)
  · by_cases hm : m = ""
    · simp only [selectRows, if_pos hm]
      exact key s (List.Sublist.refl s)
    · simp only [selectRows, if_neg hm]
      exact key _ (List.filter_sublist s)

/-! ## C7: report ordering -/

/-- C7.  Report output ordering: for every store, the report lists its days
strictly descending by date, and each day's record list is the image of
that day's selected sessions listed in strictly ascending id order. -/
theorem report_ordering (month : Option String) (s : Store)
    (hids : (s.map (·.id)).Nodup) :
    (((logsPage month s).daily_logs.map (·.work_date)).Pairwise (fun a b => b < a)) ∧
    (∀ e ∈ (logsPage month s).daily_logs,
      ∃ l : List Session,
        l.Perm ((selectRows month s).filter (fun r => r.work_date = e.work_date)) ∧
        l.Pairwise (fun a b => a.id < b.id) ∧
        e.records = l.map toRecord) := by
  have hrows_sorted : (selectRows month s).Pairwise rowLe := selectRows_sorted month s
  have hrows_ids : ((selectRows month s).map (·.id)).Nodup := selectRows_ids_nodup month s hids
  have hkeys_perm :
      (List.insertionSort keyGe ((groupByDate (selectRows month s)).map Prod.fst)).Perm
        ((groupByDate (selectRows month s)).map Prod.fst) := List.perm_insertionSort _ _
  have hkeys_nodup :
      (List.insertionSort keyGe ((groupByDate (selectRows month s)).map Prod.fst)).Nodup :=
    hkeys_perm.nodup_iff.2 (grouped_groupByDate _).1
  have hkeys_sorted :
      (List.insertionSort keyGe ((groupByDate (selectRows month s)).map Prod.fst)).Pairwise
        keyGe := List.sorted_insertionSort keyGe _
  constructor
  · have hmap : (logsPage month s).daily_logs.map (·.work_date)
        = List.insertionSort keyGe ((groupByDate (selectRows month s)).map Prod.fst) := by
      show ((List.insertionSort keyGe ((groupByDate (selectRows month s)).map Prod.fst)).map
        (dayEntryOf (groupByDate (selectRows month s)))).map (·.work_date) = _
      rw [List.map_map]
      exact List.map_id _
    rw [hmap]
    exact (hkeys_sorted.and hkeys_nodup).imp
      (fun hab => lt_of_le_of_ne hab.1 (fun he => hab.2 he.symm))
  · intro e he
    have he' : e ∈ (List.insertionSort keyGe
        ((groupByDate (selectRows month s)).map Prod.fst)).map
        (dayEntryOf (groupByDate (selectRows month s))) := he
    rcases List.mem_map.1 he' with ⟨d, hd, rfl⟩
    refine ⟨(selectRows month s).filter (fun r => r.work_date = d),
      List.Perm.refl _, ?_, ?_⟩
    · have h1 : ((selectRows month s).filter (fun r => r.work_date = d)).Pairwise rowLe :=
        List.Pairwise.sublist (List.filter_sublist _) hrows_sorted
      have hsub : List.Sublist ((selectRows month s).filter (fun r => r.work_date = d))
          (selectRows month s) := List.filter_sublist _
      have h2 : (((selectRows month s).filter (fun r => r.work_date = d)).map (·.id)).Nodup :=
        List.Nodup.sublist (hsub.map (·.id)) hrows_ids
      have h3 : ((selectRows month s).filter (fun r => r.work_date = d)).Pairwise
          (fun a b => a.id ≠ b.id) := List.pairwise_map.1 h2
      have hmemd : ∀ x ∈ (selectRows month s).filter (fun r => r.work_date = d),
          x.work_date = d := by
        intro x hx
        simpa using (List.mem_filter.1 hx).2
      refine (h1.and h3).imp_of_mem ?_
      intro a b ha hb hab
      rcases hab.1 with hlt | ⟨-, hle⟩
      · rw [hmemd a ha, hmemd b hb] at hlt
        exact absurd hlt (lt_irrefl d)
      · exact lt_of_le_of_ne hle hab.2
    · show dictGet d (groupByDate (selectRows month s)) = _
      rw [dictGet_bucket _ d (hkeys_perm.mem_iff.1 hd)]

/-- Witness for C7 on a concrete two-day store: most recent day first,
and the one-session day's records in id order. -/
theorem report_ordering_witness :
    (((logsPage none [⟨1, "2026-01-05", some 0, some 12600⟩,
        ⟨2, "2026-01-06", some 100, none⟩]).daily_logs.map (·.work_date)).Pairwise
      (fun a b => b < a)) ∧
    (∃ l : List Session,
      l.Perm ((selectRows none [⟨1, "2026-01-05", some 0, some 12600⟩,
          ⟨2, "2026-01-06", some 100, none⟩]).filter
        (fun r => r.work_date
          = (⟨"2026-01-06", [⟨some 100, none, "-", 0⟩], "0:00"⟩ : DayEntry).work_date)) ∧
      l.Pairwise (fun a b => a.id < b.id) ∧
      (⟨"2026-01-06", [⟨some 100, none, "-", 0⟩], "0:00"⟩ : DayEntry).records
        = l.map toRecord) :=
  ⟨(report_ordering none [⟨1, "2026-01-05", some 0, some 12600⟩,
      ⟨2, "2026-01-06", some 100, none⟩] (by decide)).1,
   (report_ordering none [⟨1, "2026-01-05", some 0, some 12600⟩,
      ⟨2, "2026-01-06", some 100, none⟩] (by decide)).2 _ (by decide)⟩

/-! ## C8: month filtering -/

theorem join_filter_perm : ∀ (keys : List String) (rows : List Session),
    keys.Nodup → (∀ r ∈ rows, r.work_date ∈ keys) →
    ((keys.map (fun d => rows.filter (fun r => r.work_date = d))).flatten).Perm rows := by
  intro keys
  induction keys with
  | nil =>
    intro rows _ hcomp
    have hnil : rows = [] := List.eq_nil_iff_forall_not_mem.2
      (fun r hr => absurd (hcomp r hr) (List.not_mem_nil _))
    rw [hnil]
    simp
  | cons d ks ih =>
    intro rows hnd hcomp
    have hdks : d ∉ ks := (List.nodup_cons.1 hnd).1
    have hks : ks.Nodup := (List.nodup_cons.1 hnd).2
    rw [List.map_cons, List.flatten_cons]
    have hmapeq : ks.map (fun e => rows.filter (fun r => r.work_date = e))
        = ks.map (fun e => (rows.filter (fun r => ¬ r.work_date = d)).filter
            (fun r => r.work_date = e)) := by
      apply List.map_congr_left
      intro e he
      have hed : e ≠ d := fun hh => hdks (hh ▸ he)
      rw [List.filter_filter]
      apply List.filter_congr
      intro x _
      by_cases hxe : x.work_date = e
      · have hxd : ¬ x.work_date = d := fun hh => hed (hxe.symm.trans hh)
        simp [hxe, hxd, hed]
      · simp [hxe]
    have hcomp' : ∀ r ∈ rows.filter (fun r => ¬ r.work_date = d), r.work_date ∈ ks := by
      intro r hr
      have h1 := List.mem_filter.1 hr
      have h2 := hcomp r h1.1
      rcases List.mem_cons.1 h2 with hh | hh
      · exfalso
        have := h1.2
        simp [hh] at this
      · exact hh
    have hperm1 := ih (rows.filter (fun r => ¬ r.work_date = d)) hks hcomp'
    rw [hmapeq]
    refine (hperm1.append_left _).trans ?_
    have hcongr : rows.filter (fun r => ¬ r.work_date = d)
        = rows.filter (fun r => !(decide (r.work_date = d))) := by
      apply List.filter_congr
      intro x _
      exact decide_not
    rw [hcongr]
    exact List.filter_append_perm _ rows

theorem logsPage_flatten_perm (month : Option String) (s : Store) :
    (((logsPage month s).daily_logs.map (·.records)).flatten).Perm
      ((selectRows month s).map toRecord) := by
  have hkeys_perm :
      (List.insertionSort keyGe ((groupByDate (selectRows month s)).map Prod.fst)).Perm
        ((groupByDate (selectRows month s)).map Prod.fst) := List.perm_insertionSort _ _
  have h1 : (logsPage month s).daily_logs.map (·.records)
      = (List.insertionSort keyGe ((groupByDate (selectRows month s)).map Prod.fst)).map
          (fun d => dictGet d (groupByDate (selectRows month s))) := by
    show ((List.insertionSort keyGe ((groupByDate (selectRows month s)).map Prod.fst)).map
      (dayEntryOf (groupByDate (selectRows month s)))).map (·.records) = _
    rw [List.map_map]
    rfl
  rw [h1]
  have h2 : (List.insertionSort keyGe ((groupByDate (selectRows month s)).map Prod.fst)).map
      (fun d => dictGet d (groupByDate (selectRows month s)))
      = (List.insertionSort keyGe ((groupByDate (selectRows month s)).map Prod.fst)).map
          (fun d => ((selectRows month s).filter (fun r => r.work_date = d)).map toRecord) := by
    apply List.map_congr_left
    intro d hd
    exact dictGet_bucket _ d (hkeys_perm.mem_iff.1 hd)
  rw [h2]
  have hnodup :
      (List.insertionSort keyGe ((groupByDate (selectRows month s)).map Prod.fst)).Nodup :=
    hkeys_perm.nodup_iff.2 (grouped_groupByDate _).1
  have hcomp : ∀ r ∈ selectRows month s,
      r.work_date ∈ List.insertionSort keyGe
        ((groupByDate (selectRows month s)).map Prod.fst) := by
    intro r hr
    rw [hkeys_perm.mem_iff]
    exact ((grouped_groupByDate (selectRows month s)).2.1 r.work_date).2
      (List.mem_map_of_mem (·.work_date) hr)
  have hjf := join_filter_perm _ (selectRows month s) hnodup hcomp
  have h3 : (List.insertionSort keyGe ((groupByDate (selectRows month s)).map Prod.fst)).map
      (fun d => ((selectRows month s).filter (fun r => r.work_date = d)).map toRecord)
      = ((List.insertionSort keyGe ((groupByDate (selectRows month s)).map Prod.fst)).map
          (fun d => (selectRows month s).filter (fun r => r.work_date = d))).map
            (List.map toRecord) := by
    rw [List.map_map]
    rfl
  rw [h3, ← List.map_flatten]
  exact hjf.map toRecord

/-- C8.  Month filtering: with a month parameter `m` of the form YYYY-MM
supplied, the log report contains exactly the records of the sessions
whose `work_date` begins with the prefix `"m-"`; with no month supplied
it contains the records of all sessions. -/
theorem month_filter (m : String) (s : Store) (hm : m ≠ "") :
    (((logsPage (some m) s).daily_logs.map (·.records)).flatten).Perm
      ((s.filter (fun r => List.isPrefixOf (m ++ "-").toList r.work_date.toList)).map
        toRecord) ∧
    (((logsPage none s).daily_logs.map (·.records)).flatten).Perm (s.map toRecord) :=
  ⟨(logsPage_flatten_perm (some m) s).trans ((selectRows_some_perm m s hm).map toRecord),
   (logsPage_flatten_perm none s).trans ((selectRows_none_perm s).map toRecord)⟩

/-- Witness for C8 on a concrete store spanning two months, with the
month parameter `"2026-01"`. -/
theorem month_filter_witness :
    (((logsPage (some "2026-01") [⟨1, "2026-01-05", some 0, some 12600⟩,
        ⟨2, "2025-12-31", some 0, some 600⟩]).daily_logs.map (·.records)).flatten).Perm
      (([(⟨1, "2026-01-05", some 0, some 12600⟩ : Session),
          ⟨2, "2025-12-31", some 0, some 600⟩].filter
        (fun r => List.isPrefixOf ("2026-01" ++ "-").toList r.work_date.toList)).map
          toRecord) ∧
    (((logsPage none [⟨1, "2026-01-05", some 0, some 12600⟩,
        ⟨2, "2025-12-31", some 0, some 600⟩]).daily_logs.map (·.records)).flatten).Perm
      ([(⟨1, "2026-01-05", some 0, some 12600⟩ : Session),
        ⟨2, "2025-12-31", some 0, some 600⟩].map toRecord) :=
  month_filter "2026-01" [⟨1, "2026-01-05", some 0, some 12600⟩,
    ⟨2, "2025-12-31", some 0, some 600⟩] (by decide)
